import Mathlib

/-!
Verification of the `hammock` chainable REST-client helper.

The development shallowly embeds `src/hammock.py`:

* `Hammock` models a chain node: `_name`, `_parent`, `_append_slash`,
  `_session` (sessions are opaque handles, modelled as `Nat`), together with
  the remaining instance dictionary of caller-attached custom attributes
  (modelled as a partial map `String → Option Nat`).
* `Hammock.getattr` models `Hammock.__getattr__`, `Hammock.chainCall` models
  `Hammock._chain` / `Hammock.__call__`, `Hammock.iterNodes` models
  `Hammock.__iter__`, `Hammock.url` models `Hammock._url`,
  `Hammock.probe_session` models `Hammock._probe_session`,
  `Hammock.close_session` models `Hammock._close_session` (returning the
  session handle that gets closed, `none` for a no-op), and
  `Hammock.verbCall` models a bound HTTP verb (`bind_method`'s `aux`
  composed with `Hammock._request`), returning either the raised error or
  the `(session, method, url, kwargs)` data forwarded to the transport.
-/

/-- A value of the Python object model as passed in keyword arguments:
enough structure to express the nested `params` dictionary built by
`bind_method`. -/
inductive PyVal where
  | num : Int → PyVal
  | str : String → PyVal
  | dict : List (String × PyVal) → PyVal

/-- Chain node of `hammock.py` (class `Hammock`): name, parent link,
append-slash flag, session attribute, and the remaining custom part of the
instance dictionary. -/
inductive Hammock where
  | mk : Option String → Option Hammock → Bool → Option Nat →
      (String → Option Nat) → Hammock

/-- The empty custom-attribute dictionary of a freshly constructed node. -/
def noExtra : String → Option Nat := fun _ => none

/-- Field `_name`. -/
def Hammock.name : Hammock → Option String
  | .mk n _ _ _ _ => n

/-- Field `_parent`. -/
def Hammock.parent : Hammock → Option Hammock
  | .mk _ p _ _ _ => p

/-- Field `_append_slash`. -/
def Hammock.appendSlash : Hammock → Bool
  | .mk _ _ a _ _ => a

/-- Field `_session`. -/
def Hammock.session : Hammock → Option Nat
  | .mk _ _ _ s _ => s

/-- The caller-attached custom attributes (the instance dictionary beyond
the four fields set by `__init__`). -/
def Hammock.extra : Hammock → String → Option Nat
  | .mk _ _ _ _ e => e

/-- The parent node, defaulting to the node itself for a root (used only to
state facts about a node known to have a parent). -/
def Hammock.parentD (h : Hammock) : Hammock := h.parent.getD h

/-- Python truthiness of the `_name` field: `None` and the empty string are
falsy (`if current._name:` in `__iter__`). -/
def truthyName : Option String → Bool
  | none => false
  | some s => !s.isEmpty

/-- Models `Hammock.__init__(name, parent, append_slash, **kwargs)`: the
session argument stands for `kwargs and requests.session(**kwargs) or None`
(a fresh opaque handle when session kwargs were given). The custom part of
the instance dictionary starts empty. -/
def Hammock.init (name : Option String) (parent : Option Hammock)
    (append_slash : Bool) (session : Option Nat) : Hammock :=
  .mk name parent append_slash session noExtra

/-- Models the attribute-copy loop shared by `__getattr__` and `_chain`:
`for attribute, value in src.__dict__.items(): if attribute not in
('_name', '_parent', '_append_slash'): setattr(dst, attribute, value)`.
The non-identity entries of `src.__dict__` are `_session` plus the custom
attributes, so `dst` receives `src`'s session and, key by key, `src`'s
custom attributes (keys absent from `src` keep `dst`'s value). -/
def copyAttrs (src dst : Hammock) : Hammock :=
  .mk dst.name dst.parent dst.appendSlash src.session
    (fun k => match src.extra k with
      | some v => some v
      | none => dst.extra k)

/-- Models `Hammock.__getattr__(self, name)`: a child
`Hammock(name=name, parent=self, append_slash=self._append_slash)` followed
by the attribute-copy loop. -/
def Hammock.getattr (self : Hammock) (n : String) : Hammock :=
  copyAttrs self (.mk (some n) (some self) self.appendSlash none noExtra)

/-- Models the first loop of `Hammock._chain(self, *args)`:
`chain = self; for arg in args: chain = Hammock(name=str(arg), parent=chain,
append_slash=self._append_slash)`. -/
def Hammock.buildChain (self : Hammock) (args : List String) : Hammock :=
  args.foldl
    (fun ch arg => Hammock.mk (some arg) (some ch) self.appendSlash none noExtra)
    self

/-- Models `Hammock._chain(self, *args)` (and `Hammock.__call__`): the
chain-building loop followed by the attribute-copy loop applied to the final
node. With zero arguments the loop body never runs and the copy onto the
node itself is the identity, so the node itself is returned. -/
def Hammock.chainCall (self : Hammock) (args : List String) : Hammock :=
  copyAttrs self (self.buildChain args)

/-- Models `Hammock.__iter__`: walks parent links from the node to the root,
yielding exactly the nodes whose `_name` is truthy (present and non-empty). -/
def Hammock.iterNodes : Hammock → List Hammock
  | .mk n none a s e =>
      if truthyName n then [Hammock.mk n none a s e] else []
  | .mk n (some q) a s e =>
      (if truthyName n then [Hammock.mk n (some q) a s e] else []) ++
        Hammock.iterNodes q

/-- The names yielded by `__iter__` (the `_name` of each yielded node; every
yielded node has a present name, `getD` is only a typing device). -/
def Hammock.iterNames (h : Hammock) : List String :=
  h.iterNodes.map (fun m => m.name.getD "")

/-- Python's `"/".join`. -/
def joinSlash : List String → String
  | [] => ""
  | [s] => s
  | s :: t => s ++ "/" ++ joinSlash t

/-- Models `Hammock._url(self, *args)`:
`path_comps = [mock._name for mock in self._chain(*args)]`, then
`"/".join(reversed(path_comps))`, with a `'/'` appended when
`self._append_slash` is set. -/
def Hammock.url (self : Hammock) (args : List String) : String :=
  let pathComps := (self.chainCall args).iterNames
  if self.appendSlash then joinSlash pathComps.reverse ++ "/"
  else joinSlash pathComps.reverse

/-- The first truthy `_session` of a list of nodes. -/
def firstSession : List Hammock → Option Nat
  | [] => none
  | h :: t =>
    match h.session with
    | some s => some s
    | none => firstSession t

/-- Models `Hammock._probe_session`: `for hammock in self: if
hammock._session: return hammock._session; return None`. -/
def Hammock.probe_session (self : Hammock) : Option Nat :=
  firstSession self.iterNodes

/-- Models `Hammock._close_session(self, probe)`: the closed session is
`probe and self._probe_session() or self._session` (Python `and`/`or` on
truthiness), and `none` means the call was a no-op. -/
def Hammock.close_session (self : Hammock) (probe : Bool) : Option Nat :=
  if probe then
    match self.probe_session with
    | some s => some s
    | none => self.session
  else self.session

/-- Models a caller's `setattr(node, k, v)` attaching custom configuration
to a node. -/
def Hammock.setCustom (self : Hammock) (k : String) (v : Nat) : Hammock :=
  .mk self.name self.parent self.appendSlash self.session
    (fun k' => if k' = k then some v else self.extra k')

/-- The error taxonomy of the dispatcher: the `Exception` raised by
`bind_method` when a recognized transport kwarg is mixed with an unknown
one. -/
inductive DispatchError where
  | ambiguousArguments : DispatchError

/-- The `REQUESTS_SPECIAL_KEYS` set of `bind_method`. -/
def REQUESTS_SPECIAL_KEYS : List String :=
  ["params", "headers", "cookies", "auth", "timeout",
   "allow_redirects", "proxies", "return_response", "session",
   "config", "verify", "prefetch", "cert"]

/-- Models lines 120-138 of `bind_method`'s `aux`: under
`method == 'get' and kwargs and 'params' not in kwargs`, partition the
keyword arguments against `REQUESTS_SPECIAL_KEYS`; raise when both kinds
occur, replace `kwargs` by `{'params': params_to_send}` when only unknown
keys occur, and otherwise leave `kwargs` unchanged. -/
def coerceKwargs (method : String) (kwargs : List (String × PyVal)) :
    Except DispatchError (List (String × PyVal)) :=
  if method = "get" ∧ kwargs.isEmpty = false ∧
      kwargs.any (fun kv => kv.1 == "params") = false then
    let paramsToSend := kwargs.filter
      (fun kv => !REQUESTS_SPECIAL_KEYS.contains kv.1)
    let specialFound := kwargs.any
      (fun kv => REQUESTS_SPECIAL_KEYS.contains kv.1)
    if specialFound = true ∧ paramsToSend.isEmpty = false then
      Except.error DispatchError.ambiguousArguments
    else if paramsToSend.isEmpty = false then
      Except.ok [("params", PyVal.dict paramsToSend)]
    else
      Except.ok kwargs
  else
    Except.ok kwargs

/-- The data forwarded to the transport's generic `request` operation by
`Hammock._request`: the resolved session (`none` stands for the
module-level `requests` fallback), the HTTP method, the resolved URL and
the final keyword arguments. -/
structure DispatchedRequest where
  session : Option Nat
  method : String
  url : String
  kwargs : List (String × PyVal)

/-- Models one bound HTTP verb: `bind_method(method)`'s `aux` followed by
`Hammock._request`. An `Except.error` is the exception raised before
`hammock._request` runs, so no request data is produced in that case. -/
def Hammock.verbCall (self : Hammock) (method : String) (args : List String)
    (kwargs : List (String × PyVal)) :
    Except DispatchError DispatchedRequest :=
  match coerceKwargs method kwargs with
  | Except.error e => Except.error e
  | Except.ok kw =>
      Except.ok ⟨self.probe_session, method, self.url args, kw⟩

/-! Basic simp lemmas about the node fields. -/

@[simp] theorem Hammock.name_mk (n p a s e) : (Hammock.mk n p a s e).name = n := rfl

@[simp] theorem Hammock.parent_mk (n p a s e) : (Hammock.mk n p a s e).parent = p := rfl

@[simp] theorem Hammock.appendSlash_mk (n p a s e) :
    (Hammock.mk n p a s e).appendSlash = a := rfl

@[simp] theorem Hammock.session_mk (n p a s e) : (Hammock.mk n p a s e).session = s := rfl

@[simp] theorem Hammock.extra_mk (n p a s e) : (Hammock.mk n p a s e).extra = e := rfl

theorem Hammock.eta (h : Hammock) :
    Hammock.mk h.name h.parent h.appendSlash h.session h.extra = h := by
  cases h; rfl

@[simp] theorem copyAttrs_name (src dst : Hammock) :
    (copyAttrs src dst).name = dst.name := rfl

@[simp] theorem copyAttrs_parent (src dst : Hammock) :
    (copyAttrs src dst).parent = dst.parent := rfl

@[simp] theorem copyAttrs_appendSlash (src dst : Hammock) :
    (copyAttrs src dst).appendSlash = dst.appendSlash := rfl

@[simp] theorem copyAttrs_session (src dst : Hammock) :
    (copyAttrs src dst).session = src.session := rfl

theorem copyAttrs_extra (src dst : Hammock) (k : String) :
    (copyAttrs src dst).extra k =
      match src.extra k with
      | some v => some v
      | none => dst.extra k := rfl

theorem copyAttrs_self (h : Hammock) : copyAttrs h h = h := by
  cases h with
  | mk n p a s e =>
    show Hammock.mk n p a s _ = Hammock.mk n p a s e
    congr 1
    funext k
    simp only [Hammock.extra_mk]
    cases e k <;> rfl

/-- Calling `_chain` with zero arguments returns the node itself (the loop
body never runs and copying a node's attributes onto itself changes
nothing). -/
theorem chainCall_nil (h : Hammock) : h.chainCall [] = h := by
  show copyAttrs h h = h
  exact copyAttrs_self h

/-! Lemmas about chain building and the iterator. -/

theorem buildChain_cons (h : Hammock) (a : String) (t : List String) :
    h.buildChain (a :: t) =
      (Hammock.mk (some a) (some h) h.appendSlash none noExtra).buildChain t := rfl

theorem buildChain_appendSlash (h : Hammock) (args : List String) :
    (h.buildChain args).appendSlash = h.appendSlash := by
  induction args generalizing h with
  | nil => rfl
  | cons a t ih =>
    rw [buildChain_cons]
    rw [ih]
    rfl

@[simp] theorem chainCall_appendSlash (h : Hammock) (args : List String) :
    (h.chainCall args).appendSlash = h.appendSlash := by
  show (h.buildChain args).appendSlash = h.appendSlash
  exact buildChain_appendSlash h args

@[simp] theorem chainCall_session (h : Hammock) (args : List String) :
    (h.chainCall args).session = h.session := rfl

@[simp] theorem getattr_session (h : Hammock) (n : String) :
    (h.getattr n).session = h.session := rfl

theorem getattr_extra (h : Hammock) (n : String) :
    (h.getattr n).extra = h.extra := by
  funext k
  show (match h.extra k with
        | some v => some v
        | none => noExtra k) = h.extra k
  cases h.extra k <;> rfl

theorem buildChain_extra_of_ne_nil (h : Hammock) (args : List String)
    (hne : args ≠ []) : (h.buildChain args).extra = noExtra := by
  induction args generalizing h with
  | nil => exact absurd rfl hne
  | cons a t ih =>
    rw [buildChain_cons]
    cases t with
    | nil => rfl
    | cons b r => exact ih _ (by simp)

theorem chainCall_extra (h : Hammock) (args : List String) :
    (h.chainCall args).extra = h.extra := by
  cases args with
  | nil => rw [chainCall_nil]
  | cons a t =>
    funext k
    show (match h.extra k with
          | some v => some v
          | none => (h.buildChain (a :: t)).extra k) = h.extra k
    rw [buildChain_extra_of_ne_nil h (a :: t) (by simp)]
    cases h.extra k <;> rfl

theorem iterNodes_mk (n : Option String) (p : Option Hammock) (a : Bool)
    (s : Option Nat) (e : String → Option Nat) :
    (Hammock.mk n p a s e).iterNodes =
      (if truthyName n then [Hammock.mk n p a s e] else []) ++
        (match p with
         | some q => q.iterNodes
         | none => []) := by
  cases p <;> simp [Hammock.iterNodes]

theorem iterNames_mk (n : Option String) (p : Option Hammock) (a : Bool)
    (s : Option Nat) (e : String → Option Nat) :
    (Hammock.mk n p a s e).iterNames =
      (if truthyName n then [n.getD ""] else []) ++
        (match p with
         | some q => q.iterNames
         | none => []) := by
  unfold Hammock.iterNames
  rw [iterNodes_mk]
  cases p <;> by_cases ht : truthyName n <;> simp [ht]

theorem iterNames_copyAttrs (src dst : Hammock) :
    (copyAttrs src dst).iterNames = dst.iterNames := by
  cases dst with
  | mk n p a s e =>
    show (Hammock.mk n p a src.session _).iterNames =
      (Hammock.mk n p a s e).iterNames
    rw [iterNames_mk, iterNames_mk]

theorem iterNames_getattr (h : Hammock) (n : String) :
    (h.getattr n).iterNames =
      (if n.isEmpty then [] else [n]) ++ h.iterNames := by
  show (copyAttrs h _).iterNames = _
  rw [iterNames_copyAttrs, iterNames_mk]
  by_cases hn : n.isEmpty <;> simp [truthyName, hn]

theorem iterNames_buildChain (h : Hammock) (args : List String) :
    (h.buildChain args).iterNames =
      (args.filter (fun s => !s.isEmpty)).reverse ++ h.iterNames := by
  induction args generalizing h with
  | nil => simp [Hammock.buildChain]
  | cons a t ih =>
    rw [buildChain_cons, ih, iterNames_mk]
    by_cases ha : a.isEmpty <;>
      simp [truthyName, ha, List.filter_cons]

theorem iterNames_chainCall (h : Hammock) (args : List String) :
    (h.chainCall args).iterNames =
      (args.filter (fun s => !s.isEmpty)).reverse ++ h.iterNames := by
  show (copyAttrs h _).iterNames = _
  rw [iterNames_copyAttrs, iterNames_buildChain]

theorem url_nil (h : Hammock) :
    h.url [] =
      if h.appendSlash then joinSlash h.iterNames.reverse ++ "/"
      else joinSlash h.iterNames.reverse := by
  unfold Hammock.url
  rw [chainCall_nil]

/-- Downstream construction: `Built root ns h` says that node `h` arises
from `root` by a sequence of attribute accesses (`__getattr__`) and calls
(`__call__` / `_chain`), the path-segment names added along the way being
`ns` in order. -/
inductive Built (root : Hammock) : List String → Hammock → Prop where
  | nil : Built root [] root
  | attr : ∀ {ns h} (n : String), Built root ns h →
      Built root (ns ++ [n]) (h.getattr n)
  | call : ∀ {ns h} (args : List String), Built root ns h →
      Built root (ns ++ args) (h.chainCall args)

theorem Built.appendSlash_eq {root : Hammock} {ns : List String} {h : Hammock}
    (hb : Built root ns h) : h.appendSlash = root.appendSlash := by
  induction hb with
  | nil => rfl
  | attr n _ ih => simpa using ih
  | call args _ ih => simpa using ih

theorem Built.session_eq {root : Hammock} {ns : List String} {h : Hammock}
    (hb : Built root ns h) : h.session = root.session := by
  induction hb with
  | nil => rfl
  | attr n _ ih => simpa using ih
  | call args _ ih => simpa using ih

theorem Built.extra_eq {root : Hammock} {ns : List String} {h : Hammock}
    (hb : Built root ns h) : h.extra = root.extra := by
  induction hb with
  | nil => rfl
  | attr n _ ih => rw [getattr_extra]; exact ih
  | call args _ ih => rw [chainCall_extra]; exact ih

theorem Built.iterNames_eq {root : Hammock} {ns : List String} {h : Hammock}
    (hb : Built root ns h) :
    h.iterNames = (ns.filter (fun s => !s.isEmpty)).reverse ++ root.iterNames := by
  induction hb with
  | nil => simp
  | attr n _ ih =>
    rw [iterNames_getattr, ih]
    by_cases hn : n.isEmpty <;> simp [hn, List.filter_append]
  | call args _ ih =>
    rw [iterNames_chainCall, ih]
    simp [List.filter_append]

theorem iterNames_unnamed_root (a : Bool) (s : Option Nat)
    (e : String → Option Nat) :
    (Hammock.mk none none a s e).iterNames = [] := by
  rw [iterNames_mk]
  simp [truthyName]

theorem intercalate_go_eq (as : List String) : ∀ acc : String,
    String.intercalate.go acc "/" as = joinSlash (acc :: as) := by
  induction as with
  | nil =>
    intro acc
    simp [String.intercalate.go, joinSlash]
  | cons a t ih =>
    intro acc
    rw [show String.intercalate.go acc "/" (a :: t) =
        String.intercalate.go (acc ++ "/" ++ a) "/" t from rfl, ih]
    cases t with
    | nil => simp [joinSlash]
    | cons b r => simp [joinSlash, String.append_assoc]

/-- The model's `joinSlash` agrees with the library join on `/`. -/
theorem joinSlash_eq_intercalate (l : List String) :
    joinSlash l = String.intercalate "/" l := by
  cases l with
  | nil => rfl
  | cons a t =>
    rw [show String.intercalate "/" (a :: t) =
      String.intercalate.go a "/" t from rfl, intercalate_go_eq]

theorem filter_nonEmpty_of_all_ne (ns : List String)
    (hne : ∀ n ∈ ns, n ≠ "") : ns.filter (fun s => !s.isEmpty) = ns := by
  induction ns with
  | nil => rfl
  | cons a t ih =>
    have ha : a.isEmpty = false := by
      rcases Bool.eq_false_or_eq_true a.isEmpty with h | h
      · exact absurd ((String.isEmpty_iff a).mp h) (hne a (by simp))
      · exact h
    rw [List.filter_cons]
    simp only [ha]
    rw [ih (fun n hn => hne n (by simp [hn]))]
    simp

/-- C1. For every chain of nodes with non-empty names `n1..nk` built under
an unnamed root with `append_slash = false` (by any mix of attribute
accesses and calls), `_url` with no extra segments returns the string
`n1/n2/.../nk`: the iterator collects names walking leaf to root skipping
absent and empty names, the list is reversed and joined with `/`. -/
theorem chainUrlJoinsNames (s : Option Nat) (e : String → Option Nat)
    (ns : List String) (h : Hammock)
    (hb : Built (Hammock.mk none none false s e) ns h)
    (hne : ∀ n ∈ ns, n ≠ "") :
    h.url [] = String.intercalate "/" ns := by
  rw [url_nil]
  rw [hb.appendSlash_eq]
  rw [hb.iterNames_eq, iterNames_unnamed_root,
    filter_nonEmpty_of_all_ne ns hne]
  simp only [Hammock.appendSlash_mk, if_false, List.append_nil,
    List.reverse_reverse, Bool.false_eq_true]
  exact joinSlash_eq_intercalate ns

/-- C1 witness: `root.api("v1").users("42")` resolves to
`"api/v1/users/42"`. -/
theorem chainUrlJoinsNames_example :
    (((((Hammock.mk none none false none noExtra).getattr "api").chainCall
      ["v1"]).getattr "users").chainCall ["42"]).url [] = "api/v1/users/42" := by
  have hb : Built (Hammock.mk none none false none noExtra)
      ((([] ++ ["api"]) ++ ["v1"] ++ ["users"]) ++ ["42"])
      (((((Hammock.mk none none false none noExtra).getattr "api").chainCall
        ["v1"]).getattr "users").chainCall ["42"]) :=
    Built.call ["42"] (Built.attr "users" (Built.call ["v1"]
      (Built.attr "api" Built.nil)))
  exact (chainUrlJoinsNames none noExtra _ _ hb (by decide)).trans rfl

example :
    (((((Hammock.init none none false none).getattr "api").chainCall
      ["v1"]).getattr "users").chainCall ["42"]).url [] = "api/v1/users/42" := by
  rfl

/-- C8. Calling a node with zero positional arguments returns a usable node
that resolves to the identical URL as the original node (in fact `_chain`
returns the node itself, adding no path segment). -/
theorem zeroArgCallSameUrl (h : Hammock) :
    (h.chainCall []).url [] = h.url [] := by
  rw [chainCall_nil]

/-- C2. A GET dispatch whose keyword options are non-empty and contain only
keys outside `REQUESTS_SPECIAL_KEYS` (hence no `params` key) reaches the
transport with its options entirely replaced by a single
`{'params': {...}}` object holding exactly those key/value pairs. -/
theorem getPlainKwargsCoerced (h : Hammock) (args : List String)
    (kwargs : List (String × PyVal))
    (hne : kwargs ≠ [])
    (hspec : ∀ kv ∈ kwargs, REQUESTS_SPECIAL_KEYS.contains kv.1 = false) :
    h.verbCall "get" args kwargs =
      Except.ok ⟨h.probe_session, "get", h.url args,
        [("params", PyVal.dict kwargs)]⟩ := by
  have h1 : kwargs.isEmpty = false := List.isEmpty_eq_false.mpr hne
  have h2 : kwargs.any (fun kv => kv.1 == "params") = false := by
    rw [List.any_eq_false]
    intro kv hkv hp
    have : kv.1 = "params" := by simpa using hp
    have hc := hspec kv hkv
    rw [this] at hc
    exact absurd hc (by decide)
  have h3 : kwargs.any (fun kv => REQUESTS_SPECIAL_KEYS.contains kv.1) = false := by
    rw [List.any_eq_false]
    intro kv hkv hp
    rw [hspec kv hkv] at hp
    exact absurd hp (by decide)
  have h4 : kwargs.filter (fun kv => !REQUESTS_SPECIAL_KEYS.contains kv.1) = kwargs := by
    rw [List.filter_eq_self]
    intro kv hkv
    rw [hspec kv hkv]
    rfl
  unfold Hammock.verbCall coerceKwargs
  rw [if_pos ⟨rfl, h1, h2⟩]
  simp only [h3, h4, h1]
  simp

/-- C2 witness: `execute(node, GET, [], {filter: 12})` dispatches with
options `{params: {filter: 12}}`. -/
theorem getPlainKwargsCoerced_example :
    (Hammock.mk none none false none noExtra).verbCall "get" []
        [("filter", PyVal.num 12)] =
      Except.ok ⟨none, "get", "", [("params", PyVal.dict
        [("filter", PyVal.num 12)])]⟩ :=
  getPlainKwargsCoerced _ _ _ (by simp) (by decide)

/-- C3. A GET dispatch whose options lack a `params` key while mixing at
least one recognized special key with at least one non-special key raises
the ambiguous-arguments error before any network call: `verbCall` returns
the error and produces no request data for the transport. -/
theorem getMixedKwargsRejected (h : Hammock) (args : List String)
    (kwargs : List (String × PyVal))
    (hp : kwargs.any (fun kv => kv.1 == "params") = false)
    (hs : ∃ kv ∈ kwargs, REQUESTS_SPECIAL_KEYS.contains kv.1 = true)
    (hn : ∃ kv ∈ kwargs, REQUESTS_SPECIAL_KEYS.contains kv.1 = false) :
    h.verbCall "get" args kwargs =
      Except.error DispatchError.ambiguousArguments := by
  obtain ⟨kvs, hkvs, hkvs2⟩ := hs
  obtain ⟨kvn, hkvn, hkvn2⟩ := hn
  have h1 : kwargs.isEmpty = false :=
    List.isEmpty_eq_false.mpr (by rintro rfl; exact absurd hkvs (by simp))
  have h3 : kwargs.any (fun kv => REQUESTS_SPECIAL_KEYS.contains kv.1) = true :=
    List.any_eq_true.mpr ⟨kvs, hkvs, hkvs2⟩
  have h4 : (kwargs.filter
      (fun kv => !REQUESTS_SPECIAL_KEYS.contains kv.1)).isEmpty = false := by
    rw [List.isEmpty_eq_false]
    intro hnil
    have : kvn ∈ kwargs.filter (fun kv => !REQUESTS_SPECIAL_KEYS.contains kv.1) := by
      rw [List.mem_filter]
      exact ⟨hkvn, by rw [hkvn2]; rfl⟩
    rw [hnil] at this
    exact absurd this (by simp)
  unfold Hammock.verbCall coerceKwargs
  rw [if_pos ⟨rfl, h1, hp⟩]
  simp only [h3, h4]
  simp

/-- C3 witness: `execute(node, GET, [], {headers: {...}, filter: 12})`
raises the ambiguous-arguments error. -/
theorem getMixedKwargsRejected_example :
    (Hammock.mk none none false none noExtra).verbCall "get" []
        [("headers", PyVal.dict []), ("filter", PyVal.num 12)] =
      Except.error DispatchError.ambiguousArguments :=
  getMixedKwargsRejected _ _ _ (by decide)
    ⟨("headers", PyVal.dict []), by simp, by decide⟩
    ⟨("filter", PyVal.num 12), by simp, by decide⟩

/-- C4. Parameter coercion runs only when the method is GET, the options
are non-empty and no `params` key is present: in every other case — any
other HTTP verb, empty options, or options already containing `params` —
the options reach the transport completely unchanged and no error is
raised. -/
theorem nonTriggerForwardsUnchanged (h : Hammock) (method : String)
    (args : List String) (kwargs : List (String × PyVal))
    (hcond : ¬(method = "get" ∧ kwargs.isEmpty = false ∧
        kwargs.any (fun kv => kv.1 == "params") = false)) :
    h.verbCall method args kwargs =
      Except.ok ⟨h.probe_session, method, h.url args, kwargs⟩ := by
  unfold Hammock.verbCall coerceKwargs
  rw [if_neg hcond]

theorem buildChain_name_mem (args : List String) (h : Hammock)
    (hne : args ≠ []) : ∃ m ∈ args, (h.buildChain args).name = some m := by
  induction args generalizing h with
  | nil => exact absurd rfl hne
  | cons a t ih =>
    cases t with
    | nil => exact ⟨a, by simp, rfl⟩
    | cons b r =>
      obtain ⟨m, hm, hname⟩ := ih
        (Hammock.mk (some a) (some h) h.appendSlash none noExtra) (by simp)
      rw [buildChain_cons]
      exact ⟨m, by simp [hm], hname⟩

theorem Built.leaf_name {root : Hammock} {ns : List String} {h : Hammock}
    (hb : Built root ns h) (hns : ns ≠ []) : ∃ m ∈ ns, h.name = some m := by
  induction hb with
  | nil => exact absurd rfl hns
  | attr n _ _ => exact ⟨n, by simp, rfl⟩
  | call args hb' ih =>
    cases args with
    | nil =>
      rw [chainCall_nil]
      rw [List.append_nil]
      rw [List.append_nil] at hns
      exact ih hns
    | cons a t =>
      obtain ⟨m, hm, hname⟩ := buildChain_name_mem (a :: t) _ (by simp)
      exact ⟨m, List.mem_append_right _ hm, hname⟩

theorem probe_session_of_named_session (h : Hammock) (m : String) (sv : Nat)
    (hname : h.name = some m) (hm : m ≠ "") (hs : h.session = some sv) :
    h.probe_session = some sv := by
  cases h with
  | mk n p a s e =>
    rw [Hammock.name_mk] at hname
    rw [Hammock.session_mk] at hs
    subst hname
    subst hs
    have ht : truthyName (some m) = true := by
      show (!m.isEmpty) = true
      rcases Bool.eq_false_or_eq_true m.isEmpty with hb | hb
      · exact absurd ((String.isEmpty_iff m).mp hb) hm
      · rw [hb]; rfl
    unfold Hammock.probe_session
    rw [iterNodes_mk, ht]
    simp [firstSession]

/-- C5 counterexample: an unnamed root carrying a session. The claim says
`_probe_session` starts at and includes the node itself and returns the
first non-absent session, which here would be the node's own session `7`;
the code's iterator skips every node whose name is absent or empty, so the
probe returns none. -/
theorem probeSessionUnnamedRoot_cex :
    (Hammock.mk none none false (some 7) noExtra).session = some 7 ∧
    (Hammock.mk none none false (some 7) noExtra).probe_session = none :=
  ⟨rfl, rfl⟩

/-- C5 amended. `_probe_session` walks the ancestor chain leaf-upward but
visits only nodes whose name is present and non-empty, returning the first
visited node's non-absent session; in particular an unnamed node's own
session is skipped (first part). A session attached at the root is still
obtained from any descendant chain with non-empty names at any depth,
because construction copies the session reference onto every returned
child (second part). -/
theorem probeSessionAmended :
    (∀ (a : Bool) (sv : Nat) (e : String → Option Nat),
      (Hammock.mk none none a (some sv) e).probe_session = none) ∧
    (∀ (a : Bool) (sv : Nat) (e : String → Option Nat) (ns : List String)
        (h : Hammock),
      Built (Hammock.mk none none a (some sv) e) ns h → ns ≠ [] →
      (∀ n ∈ ns, n ≠ "") → h.probe_session = some sv) := by
  constructor
  · intro a sv e
    rfl
  · intro a sv e ns h hb hns hne
    obtain ⟨m, hm, hname⟩ := hb.leaf_name hns
    exact probe_session_of_named_session h m sv hname (hne m hm)
      (by rw [hb.session_eq]; rfl)

/-- C5 amended witness: a session `7` attached at an unnamed root is found
by probing from the child `root.x`. -/
theorem probeSessionAmended_witness :
    ((Hammock.mk none none false (some 7) noExtra).getattr "x").probe_session
      = some 7 :=
  probeSessionAmended.2 false 7 noExtra ([] ++ ["x"]) _
    (Built.attr "x" Built.nil) (by simp) (by decide)

/-- C6 counterexample: a caller attaches a session only at the root, yet
the child created by attribute access carries the session too — the
attribute-copy loop excludes only `_name`, `_parent` and `_append_slash`,
so `_session` is copied onto the new child, contradicting the claim that
child creation never places a session on the new child. -/
theorem sessionCopiedToChild_cex :
    ((Hammock.mk none none false (some 7) noExtra).getattr "x").session
      = some 7 := rfl

/-- C6 amended. A fresh session object is created only at explicit
construction with session configuration, but child creation via attribute
access or a call copies the parent's session reference onto the returned
child; only the intermediate nodes created inside a multi-argument call
carry no session. -/
theorem sessionCopyAmended :
    (∀ (h : Hammock) (n : String), (h.getattr n).session = h.session) ∧
    (∀ (h : Hammock) (args : List String),
      (h.chainCall args).session = h.session) ∧
    (∀ (h : Hammock) (a b : String),
      ((h.chainCall [a, b]).parentD).session = none) :=
  ⟨fun _ _ => rfl, fun _ _ => rfl, fun _ _ _ => rfl⟩

/-- C9 counterexample: an unnamed root carrying a session. With
`probe = True`, `_probe_session` finds nothing (the iterator skips unnamed
nodes), so by the claim closing should be a no-op; the code's
`probe and self._probe_session() or self._session` then falls back to the
node's own session and closes it. -/
theorem closeSessionFallback_cex :
    (Hammock.mk none none false (some 7) noExtra).probe_session = none ∧
    (Hammock.mk none none false (some 7) noExtra).close_session true
      = some 7 :=
  ⟨rfl, rfl⟩

/-- C9 amended. `_close_session` with `probe` unset closes the node's own
session; with `probe` set it closes the session found by `_probe_session`
when the search succeeds, and otherwise falls back to closing the node's
own session; in either mode it is a no-op when the relevant sessions are
absent. -/
theorem closeSessionAmended (h : Hammock) :
    (h.close_session false = h.session) ∧
    (∀ sv, h.probe_session = some sv → h.close_session true = some sv) ∧
    (h.probe_session = none → h.close_session true = h.session) ∧
    (h.probe_session = none → h.session = none →
      h.close_session true = none) := by
  refine ⟨rfl, ?_, ?_, ?_⟩
  · intro sv hp
    simp [Hammock.close_session, hp]
  · intro hp
    simp [Hammock.close_session, hp]
  · intro hp hs
    simp [Hammock.close_session, hp, hs]

/-- C9 amended witness: closing with `probe` set on a named, session-less
root is a no-op. -/
theorem closeSessionAmended_witness :
    (Hammock.mk (some "a") none false none noExtra).close_session true
      = none :=
  (closeSessionAmended _).2.2.2 rfl rfl

/-- C10 counterexample: a custom attribute `hdr = 5` is attached to a node
and `node("a", "b")` is called. The returned node carries the attribute,
but the intermediate node `"a"` — also built downstream by that call, and
reachable as the returned node's parent — does not: `_chain` runs the
attribute-copy loop only on the final node. -/
theorem intermediateNodeAttr_cex :
    ((((Hammock.mk none none false none noExtra).setCustom "hdr" 5).chainCall
      ["a", "b"]).parentD).extra "hdr" = none ∧
    (((Hammock.mk none none false none noExtra).setCustom "hdr" 5).chainCall
      ["a", "b"]).extra "hdr" = some 5 ∧
    ((Hammock.mk none none false none noExtra).setCustom "hdr" 5).extra "hdr"
      = some 5 :=
  ⟨rfl, rfl, rfl⟩

/-- C10 amended. Every node returned downstream by attribute access or by
a call (with any number of segment arguments) carries a caller-attached
custom attribute of the originating node — in particular a grandchild
created after the attachment sees the parent's value; only the
intermediate nodes created inside a multi-argument call, reachable as
ancestors of the returned node, do not carry it. -/
theorem attrPropagationAmended (k : String) (v : Nat) (root h : Hammock)
    (ns : List String) (hattr : root.extra k = some v)
    (hb : Built root ns h) : h.extra k = some v := by
  rw [hb.extra_eq]
  exact hattr

/-- C10 amended witness: the attribute `hdr = 5` attached to a node is
visible on the child `node.users`. -/
theorem attrPropagationAmended_witness :
    (((Hammock.mk none none false none noExtra).setCustom "hdr" 5).getattr
      "users").extra "hdr" = some 5 :=
  attrPropagationAmended "hdr" 5
    ((Hammock.mk none none false none noExtra).setCustom "hdr" 5) _
    ([] ++ ["users"]) rfl (Built.attr "users" Built.nil)

theorem strData_append (a b : String) : (a ++ b).data = a.data ++ b.data := by
  cases a
  cases b
  rfl

theorem strData_ne_nil (x : String) (hx : x ≠ "") : x.data ≠ [] := by
  intro hd
  exact hx (String.ext (hd.trans rfl))

theorem joinSlash_cons_data (x : String) (r : List String) :
    ∃ t, (joinSlash (x :: r)).data = x.data ++ t := by
  cases r with
  | nil => exact ⟨[], by simp [joinSlash]⟩
  | cons b r' =>
    refine ⟨'/' :: (joinSlash (b :: r')).data, ?_⟩
    show ((x ++ "/") ++ joinSlash (b :: r')).data = _
    rw [strData_append, strData_append]
    simp

theorem joinSlash_getLast_ne (l : List String)
    (hne : ∀ x ∈ l, x ≠ "")
    (hl : ∀ x ∈ l, x.data.getLast? ≠ some '/') :
    (joinSlash l).data.getLast? ≠ some '/' := by
  induction l with
  | nil => simp [joinSlash]
  | cons x r ih =>
    cases r with
    | nil => exact hl x (by simp)
    | cons y r' =>
      show (((x ++ "/") ++ joinSlash (y :: r')).data).getLast? ≠ some '/'
      rw [strData_append]
      obtain ⟨t, ht⟩ := joinSlash_cons_data y r'
      have hjne : (joinSlash (y :: r')).data ≠ [] := by
        rw [ht]
        intro hcontra
        exact strData_ne_nil y (hne y (by simp))
          (List.append_eq_nil.mp hcontra).1
      rw [List.getLast?_append_of_ne_nil _ hjne]
      exact ih (fun z hz => hne z (by simp [hz]))
        (fun z hz => hl z (by simp [hz]))

/-- C7 counterexample: under a root with `append_slash = True`, a chain
node named `"x/"` (any call argument is stringified, so segment strings may
end in a slash) resolves to `"x//"`, which ends in two slashes — the claim
says the resolved URL always ends with exactly one trailing slash and never
two. -/
theorem doubleTrailingSlash_cex :
    ((Hammock.mk none none true none noExtra).chainCall ["x/"]).url []
      = "x//" ∧
    ("x//".data.getLast? = some '/' ∧
      "x//".data.dropLast.getLast? = some '/') :=
  ⟨rfl, by decide⟩

theorem one_slash_of_segs (u : String) (segs : List String)
    (hu : u = joinSlash segs ++ "/")
    (hne : ∀ x ∈ segs, x ≠ "")
    (hslash : ∀ x ∈ segs, x.data.getLast? ≠ some '/') :
    u.data.getLast? = some '/' ∧ u.data.dropLast.getLast? ≠ some '/' := by
  have hdata : u.data = (joinSlash segs).data ++ ['/'] := by
    rw [hu, strData_append]
  constructor
  · rw [hdata]
    exact List.getLast?_concat _
  · rw [hdata, List.dropLast_concat]
    exact joinSlash_getLast_ne segs hne hslash

theorem filter_nonEmpty_ne (ns : List String) :
    ∀ x ∈ ns.filter (fun n => !n.isEmpty), x ≠ "" := by
  intro x hx hxe
  have := (List.mem_filter.mp hx).2
  rw [hxe] at this
  exact absurd this (by decide)

/-- C7 amended. For every chain built under a (named or unnamed) root
configured with `append_slash = true`, provided that neither the root's
own name (when present) nor any chained segment name itself ends in a
slash, the resolved URL ends with exactly one trailing `'/'` and never two
(last character is `'/'`, the one before is not); and a chain containing
only an unnamed root resolves to `"/"` when `append_slash` is set and to
the empty string otherwise. -/
theorem trailingSlashAmended :
    (∀ (rn : Option String) (s : Option Nat) (e : String → Option Nat)
        (ns : List String) (h : Hammock),
      Built (Hammock.mk rn none true s e) ns h →
      (∀ n ∈ ns, n.data.getLast? ≠ some '/') →
      (∀ m, rn = some m → m.data.getLast? ≠ some '/') →
      (h.url []).data.getLast? = some '/' ∧
        (h.url []).data.dropLast.getLast? ≠ some '/') ∧
    (∀ (s : Option Nat) (e : String → Option Nat),
      (Hammock.mk none none true s e).url [] = "/") ∧
    (∀ (s : Option Nat) (e : String → Option Nat),
      (Hammock.mk none none false s e).url [] = "") := by
  refine ⟨?_, ?_, ?_⟩
  · intro rn s e ns h hb hslash hroot
    have hfsl : ∀ x ∈ ns.filter (fun n => !n.isEmpty),
        x.data.getLast? ≠ some '/' :=
      fun x hx => hslash x (List.mem_filter.mp hx).1
    cases rn with
    | none =>
      apply one_slash_of_segs _ (ns.filter (fun n => !n.isEmpty))
      · rw [url_nil, hb.appendSlash_eq]
        rw [hb.iterNames_eq, iterNames_unnamed_root]
        simp
      · exact filter_nonEmpty_ne ns
      · exact hfsl
    | some m =>
      by_cases hm : m.isEmpty
      · have hri : (Hammock.mk (some m) none true s e).iterNames = [] := by
          rw [iterNames_mk]
          simp [truthyName, hm]
        apply one_slash_of_segs _ (ns.filter (fun n => !n.isEmpty))
        · rw [url_nil, hb.appendSlash_eq]
          rw [hb.iterNames_eq, hri]
          simp
        · exact filter_nonEmpty_ne ns
        · exact hfsl
      · have hri : (Hammock.mk (some m) none true s e).iterNames = [m] := by
          rw [iterNames_mk]
          simp [truthyName, hm]
        apply one_slash_of_segs _ (m :: ns.filter (fun n => !n.isEmpty))
        · rw [url_nil, hb.appendSlash_eq]
          rw [hb.iterNames_eq, hri]
          simp
        · intro x hx
          rcases List.mem_cons.mp hx with hx | hx
          · subst hx
            exact fun hxe => hm ((String.isEmpty_iff x).mpr hxe)
          · exact filter_nonEmpty_ne ns x hx
        · intro x hx
          rcases List.mem_cons.mp hx with hx | hx
          · subst hx
            exact hroot x rfl
          · exact hfsl x hx
  · intro s e
    rfl
  · intro s e
    rfl

/-- C7 amended witness: `root.a` under a root named `"x"` with
`append_slash = True` resolves to `"x/a/"`, ending in exactly one
slash. -/
theorem trailingSlashAmended_witness :
    ((((Hammock.mk (some "x") none true none noExtra).getattr "a").url
      []).data.getLast? = some '/') ∧
    ((((Hammock.mk (some "x") none true none noExtra).getattr "a").url
      []).data.dropLast.getLast? ≠ some '/') :=
  trailingSlashAmended.1 (some "x") none noExtra ([] ++ ["a"]) _
    (Built.attr "a" Built.nil) (by decide)
    (fun m hm => by
      cases Option.some_inj.mp hm
      decide)

/-- C4 witness: `execute(node, GET, [], {params: {a: 1}, filter: 12})` (a
`params` key already present) forwards the options unchanged. -/
theorem nonTriggerForwardsUnchanged_example :
    (Hammock.mk none none false none noExtra).verbCall "get" []
        [("params", PyVal.dict [("a", PyVal.num 1)]), ("filter", PyVal.num 12)] =
      Except.ok ⟨none, "get", "",
        [("params", PyVal.dict [("a", PyVal.num 1)]),
         ("filter", PyVal.num 12)]⟩ :=
  nonTriggerForwardsUnchanged _ _ _ _ (by decide)
